import Mathlib

/-!
Verification of the PostgreSQL JSON/JSONB dialect module of sqlalchemy
(lib/sqlalchemy/dialects/postgresql/json.py), shallowly embedded in Lean.

The module defines four index/text operators, a Comparator that resolves
index operations and the astext coercion, a JSONB comparator with five
membership predicates and an overridden type-adaptation hook, and a codec
bridge (bind_processor / result_processor) around the default JSON codec.

External collaborators (the Indexable/Concatenable capability framework,
the generic named-operator primitive, the expression node type and the
default JSON codec) are not part of the source file; they are modelled
from the spec and marked as such in their doc comments.
-/

namespace PgJson

/-- Model of the operators.custom_op objects this module builds: an operator
symbol, its precedence and the natural_self_precedent flag (the spec's
Operator record: symbol, precedence, self_precedent). -/
structure CustomOp where
  opstring : String
  precedence : Nat
  natural_self_precedent : Bool
deriving DecidableEq

/-- INDEX = operators.custom_op("->", precedence=5, natural_self_precedent=True). -/
def INDEX : CustomOp :=
  { opstring := "->", precedence := 5, natural_self_precedent := true }

/-- PATHIDX = operators.custom_op("#>", precedence=5, natural_self_precedent=True). -/
def PATHIDX : CustomOp :=
  { opstring := "#>", precedence := 5, natural_self_precedent := true }

/-- ASTEXT = operators.custom_op("->>", precedence=5, natural_self_precedent=True). -/
def ASTEXT : CustomOp :=
  { opstring := "->>", precedence := 5, natural_self_precedent := true }

/-- ASTEXT_PATHIDX = operators.custom_op("#>>", precedence=5, natural_self_precedent=True). -/
def ASTEXT_PATHIDX : CustomOp :=
  { opstring := "#>>", precedence := 5, natural_self_precedent := true }

/-- A sqlalchemy operator value: either a custom_op instance or one of the
plain operator functions of sqlalchemy.sql.operators (concat_op, eq, ...),
which the isinstance(op, custom_op) test in the source distinguishes. -/
inductive SqlOperator where
  | custom (c : CustomOp)
  | builtin (name : String)
deriving DecidableEq

/-- Declared result types of expressions built by this module: the column's
own document type (the spec's SAME_TYPE), Text, Boolean, or the marker for
whatever the Concatenable default adaptation yields. -/
inductive ResultType where
  | sameType
  | text
  | boolean
  | concatDefault
deriving DecidableEq

/-- Python runtime errors that the embedded code can raise. -/
inductive PyError where
  | nameError (missing : String)
  | attributeError
  | assertionError
  | valueError
deriving DecidableEq

/-- A scalar index key: a text key or a numeric key. -/
inductive PyScalar where
  | sstr (s : String)
  | sint (n : Int)
deriving DecidableEq

/-- A Python value passed as the index to the getitem operator: a string, a
number, an ordered sequence of scalars (list/tuple), or a non-sequence
object such as a dict. -/
inductive PyIndex where
  | pystr (s : String)
  | pyint (n : Int)
  | pyseq (elems : List PyScalar)
  | pydict
deriving DecidableEq

/-- util.text_type(elem): Python str() of a scalar. -/
def text_type : PyScalar → String
  | .sstr s => s
  | .sint n => toString n

/-- Python isinstance(index, util.string_types). -/
def isinstance_string_types : PyIndex → Bool
  | .pystr _ => true
  | _ => false

/-- Python isinstance(index, collections.Sequence): strings and lists/tuples
are Sequences; numbers and dicts are not. -/
def isinstance_Sequence : PyIndex → Bool
  | .pystr _ => true
  | .pyseq _ => true
  | .pyint _ => false
  | .pydict => false

/-- Modelled from the spec: the Indexable capability's type lookup used by
_setup_getitem (sqltypes.Indexable.Comparator, not in the source file).
The index_map maps key patterns to declared result types, defaulting to
SAME_TYPE (the column's own document type) for keys not present. -/
def _type_for_index (index_map : PyIndex → Option ResultType) (index : PyIndex) :
    ResultType :=
  (index_map index).getD ResultType.sameType

/-- The default index_map of JSON/JSONB, the spec's ANY_KEY to SAME_TYPE:
no key has an explicit entry, so every lookup falls to the default. -/
def default_index_map : PyIndex → Option ResultType := fun _ => none

/-- JSON.Comparator._setup_getitem:
if the index is not a string, assert it is a Sequence, render it as
"\x7bk1, k2, ...\x7d" and use PATHIDX; otherwise use INDEX with the index
unchanged; the result type comes from _type_for_index. The assert is
modelled as an AssertionError result, and Except.error means that no
expression node is produced. -/
def _setup_getitem (index_map : PyIndex → Option ResultType) (index : PyIndex) :
    Except PyError (CustomOp × PyIndex × ResultType) :=
  if ¬ isinstance_string_types index then
    if ¬ isinstance_Sequence index then
      Except.error PyError.assertionError
    else
      match index with
      | .pyseq elems =>
        let rendered : PyIndex :=
          .pystr ("\x7b" ++ String.intercalate ", " (elems.map text_type) ++ "\x7d")
        Except.ok (PATHIDX, rendered, _type_for_index index_map rendered)
      | _ =>
        -- unreachable: among the modelled shapes only pyseq is a
        -- non-string Sequence
        Except.error PyError.assertionError
  else
    Except.ok (INDEX, index, _type_for_index index_map index)

/-- Modelled from the spec: the expression node produced to the SQL
renderer (sqlalchemy.sql.elements, not in the source file): either a bare
column or a binary node carrying left operand, operator, right operand and
declared result type. Right operands are index values or literals,
modelled by PyIndex. -/
inductive SqlExpr where
  | column (name : String)
  | binary (left : SqlExpr) (operator : SqlOperator) (right : PyIndex)
      (result_type : ResultType)
deriving DecidableEq

/-- Modelled from the spec: ColumnElement.operate with an explicit
result_type keyword (not in the source file) — it builds the binary
expression node from the given operands, operator and declared type. -/
def operate (left : SqlExpr) (op : SqlOperator) (right : PyIndex)
    (result_type : ResultType) : SqlExpr :=
  SqlExpr.binary left op right result_type

/-- Reading the .operator attribute of the comparator's expression, as
astext does: a binary node has one; a bare column has no such attribute
and the access raises AttributeError. -/
def expr_operator : SqlExpr → Except PyError SqlOperator
  | .column _ => Except.error PyError.attributeError
  | .binary _ op _ _ => Except.ok op

/-- Reading the .left attribute, with the same AttributeError behaviour. -/
def expr_left : SqlExpr → Except PyError SqlExpr
  | .column _ => Except.error PyError.attributeError
  | .binary l _ _ _ => Except.ok l

/-- Reading the .right attribute, with the same AttributeError behaviour. -/
def expr_right : SqlExpr → Except PyError PyIndex
  | .column _ => Except.error PyError.attributeError
  | .binary _ _ r _ => Except.ok r

/-- JSON.Comparator.astext:
read self.expr.operator; if it is PATHIDX substitute ASTEXT_PATHIDX,
otherwise substitute ASTEXT; then build
self.expr.left.operate(against, self.expr.right, result_type=Text). -/
def astext (expr : SqlExpr) : Except PyError SqlExpr := do
  let against ← expr_operator expr
  let against :=
    if against = SqlOperator.custom PATHIDX then SqlOperator.custom ASTEXT_PATHIDX
    else SqlOperator.custom ASTEXT
  let l ← expr_left expr
  let r ← expr_right expr
  Except.ok (operate l against r ResultType.text)

/-- The names bound at module scope of postgresql/json.py: the bindings
made by its import statements and its top-level definitions. The method
body of JSONB.comparator_factory._adapt_expression references the bare
name custom_op, which is not among them (only the operators module object
is imported), so evaluating isinstance(op, custom_op) raises NameError. -/
def module_globals : List String :=
  ["absolute_import", "collections", "json", "ischema_names", "sqltypes",
   "operators", "elements", "util", "INDEX", "PATHIDX", "ASTEXT",
   "ASTEXT_PATHIDX", "JSON", "JSONB"]

/-- Modelled from the spec: the Concatenable capability's default
adaptation rule (sqltypes.Concatenable.Comparator._adapt_expression, not
in the source file). The spec states only that it deterministically
yields some operator/result-type pair; the result type is represented by
the abstract concatDefault marker. -/
def concatenable_adapt_expression (op : SqlOperator) (_other_type : ResultType) :
    Except PyError (SqlOperator × ResultType) :=
  Except.ok (op, ResultType.concatDefault)

namespace JSONB

/-- JSONB.comparator_factory._adapt_expression:
the body first evaluates isinstance(op, custom_op). The bare name
custom_op must be resolved against the module globals, where it is not
bound, so the call raises NameError before any branch is taken. The
branches that would follow a successful resolution (the five membership
opstrings to Boolean, "->" to Text, otherwise the Concatenable default)
are kept under the name-resolution guard. -/
def _adapt_expression (op : SqlOperator) (other_type : ResultType) :
    Except PyError (SqlOperator × ResultType) :=
  if module_globals.contains "custom_op" then
    match op with
    | .custom c =>
      if ["?", "?&", "?|", "@>", "<@"].contains c.opstring then
        Except.ok (op, ResultType.boolean)
      else if c.opstring = "->" then
        Except.ok (op, ResultType.text)
      else concatenable_adapt_expression op other_type
    | .builtin _ => concatenable_adapt_expression op other_type
  else
    Except.error (PyError.nameError "custom_op")

/-- Modelled from the spec: the generic apply-named-operator primitive
used by the five predicate builders (Operators.op and the
default_comparator binary-construction path, not in the source file): it
builds a custom_op from the opstring with default precedence, consults
the receiver type's adaptation hook for the operator and result type, and
builds the binary expression node; an exception in the hook aborts the
construction with no node produced. -/
def apply_op (expr : SqlExpr) (opstring : String) (other : PyIndex)
    (other_type : ResultType) : Except PyError SqlExpr := do
  let c : CustomOp :=
    { opstring := opstring, precedence := 0, natural_self_precedent := false }
  let (op2, rt) ← _adapt_expression (SqlOperator.custom c) other_type
  Except.ok (SqlExpr.binary expr op2 other rt)

/-- JSONB.comparator_factory.has_key: self.expr.op(Chr63)(other) with the
single character opstring "?". -/
def has_key (expr : SqlExpr) (other : PyIndex) (other_type : ResultType) :
    Except PyError SqlExpr :=
  apply_op expr "?" other other_type

/-- JSONB.comparator_factory.has_all: opstring "?&". -/
def has_all (expr : SqlExpr) (other : PyIndex) (other_type : ResultType) :
    Except PyError SqlExpr :=
  apply_op expr "?&" other other_type

/-- JSONB.comparator_factory.has_any: opstring "?|". -/
def has_any (expr : SqlExpr) (other : PyIndex) (other_type : ResultType) :
    Except PyError SqlExpr :=
  apply_op expr "?|" other other_type

/-- JSONB.comparator_factory.contains: opstring "@>". -/
def contains (expr : SqlExpr) (other : PyIndex) (other_type : ResultType) :
    Except PyError SqlExpr :=
  apply_op expr "@>" other other_type

/-- JSONB.comparator_factory.contained_by: opstring "<@". -/
def contained_by (expr : SqlExpr) (other : PyIndex) (other_type : ResultType) :
    Except PyError SqlExpr :=
  apply_op expr "<@" other other_type

end JSONB

/-- A key of a Python mapping passed to the JSON serializer: a string key,
or an integer key (which the default encoder coerces to its text form). -/
inductive JKey where
  | kstr (s : String)
  | kint (n : Int)
deriving DecidableEq

/-- An in-memory value crossing the codec bridge: the in-memory absence
value None (jnull), booleans, integers, text, ordered sequences and
mappings. IEEE floating-point payloads are outside this embedding. -/
inductive JValue where
  | jnull
  | jbool (b : Bool)
  | jint (n : Int)
  | jstr (s : String)
  | jarr (elems : List JValue)
  | jobj (fields : List (JKey × JValue))

/-- The decimal digit character for d < 10. -/
def digitChar (d : Nat) : Char :=
  match d with
  | 0 => '0' | 1 => '1' | 2 => '2' | 3 => '3' | 4 => '4'
  | 5 => '5' | 6 => '6' | 7 => '7' | 8 => '8' | 9 => '9'
  | _ => '*'

/-- Decimal rendering worker: peel one digit per unit of fuel; any fuel
above the number itself is enough, since n / 10 < n for positive n. -/
def natDecimalAux : Nat → Nat → List Char
  | 0, _ => []
  | f + 1, n =>
    if n < 10 then [digitChar n]
    else natDecimalAux f (n / 10) ++ [digitChar (n % 10)]

/-- Decimal rendering of a natural number, most significant digit first,
as Python str() renders it. -/
def natDecimal (n : Nat) : List Char := natDecimalAux (n + 1) n

/-- Decimal rendering of an integer, as Python str() renders it. -/
def intDecimal (n : Int) : List Char :=
  if n < 0 then '-' :: natDecimal n.natAbs else natDecimal n.natAbs

/-- The lowercase hexadecimal digit character for d < 16, as Python's
%04x formatting uses. -/
def hexChar (d : Nat) : Char :=
  match d with
  | 0 => '0' | 1 => '1' | 2 => '2' | 3 => '3' | 4 => '4'
  | 5 => '5' | 6 => '6' | 7 => '7' | 8 => '8' | 9 => '9'
  | 10 => 'a' | 11 => 'b' | 12 => 'c' | 13 => 'd' | 14 => 'e' | 15 => 'f'
  | _ => '*'

/-- Four lowercase hex digits of n < 0x10000. -/
def hex4 (n : Nat) : List Char :=
  [hexChar (n / 4096 % 16), hexChar (n / 256 % 16), hexChar (n / 16 % 16),
   hexChar (n % 16)]

/-- Modelled from the spec: the per-character escaping of the default JSON
encoder with its default ensure_ascii behaviour: backslash, double quote
and the five short control escapes, printable ASCII verbatim, and other
characters as four-digit hex escapes, astral characters as a surrogate
pair of hex escapes. -/
def escapeChar (c : Char) : List Char :=
  if c = '"' then ['\\', '"']
  else if c = '\\' then ['\\', '\\']
  else if c = '\n' then ['\\', 'n']
  else if c = '\t' then ['\\', 't']
  else if c = '\r' then ['\\', 'r']
  else if c = '\x08' then ['\\', 'b']
  else if c = '\x0c' then ['\\', 'f']
  else if 0x20 ≤ c.toNat ∧ c.toNat ≤ 0x7e then [c]
  else if c.toNat ≤ 0xffff then '\\' :: 'u' :: hex4 c.toNat
  else
    ('\\' :: 'u' :: hex4 (0xd800 + (c.toNat - 0x10000) / 0x400)) ++
      ('\\' :: 'u' :: hex4 (0xdc00 + (c.toNat - 0x10000) % 0x400))

/-- Rendering of a mapping key by the default JSON encoder: a string key
is rendered like a JSON string; an integer key is coerced to its decimal
text form and quoted. -/
def dumpKey : JKey → List Char
  | .kstr s => '"' :: (s.data.map escapeChar).flatten ++ ['"']
  | .kint n => '"' :: intDecimal n ++ ['"']

mutual

/-- Modelled from the spec: the default JSON encoder (json.dumps with its
default separators: comma-space between items, colon-space after keys). -/
def dumpVal : JValue → List Char
  | .jnull => ['n', 'u', 'l', 'l']
  | .jbool true => ['t', 'r', 'u', 'e']
  | .jbool false => ['f', 'a', 'l', 's', 'e']
  | .jint n => intDecimal n
  | .jstr s => '"' :: (s.data.map escapeChar).flatten ++ ['"']
  | .jarr l => '[' :: dumpElems l ++ [']']
  | .jobj m => '\x7b' :: dumpMembers m ++ ['\x7d']

/-- Array items joined by comma-space. -/
def dumpElems : List JValue → List Char
  | [] => []
  | [v] => dumpVal v
  | v :: vs => dumpVal v ++ ',' :: ' ' :: dumpElems vs

/-- Object members key colon-space value, joined by comma-space. -/
def dumpMembers : List (JKey × JValue) → List Char
  | [] => []
  | [(k, v)] => dumpKey k ++ ':' :: ' ' :: dumpVal v
  | (k, v) :: ms => dumpKey k ++ ':' :: ' ' :: dumpVal v ++ ',' :: ' ' :: dumpMembers ms

end

/-- json.dumps as a String transform. -/
def dumps (v : JValue) : String := String.mk (dumpVal v)

/-- JSON whitespace accepted between tokens by the default decoder. -/
def isWs (c : Char) : Bool := c = ' ' || c = '\t' || c = '\n' || c = '\r'

/-- Drop leading JSON whitespace. -/
def skipWs : List Char → List Char
  | [] => []
  | c :: r => if isWs c then skipWs r else c :: r

/-- Value of one hexadecimal digit character. -/
def hexVal (c : Char) : Option Nat :=
  if c.isDigit then some (c.toNat - 48)
  else if 'a' ≤ c ∧ c ≤ 'f' then some (c.toNat - 87)
  else if 'A' ≤ c ∧ c ≤ 'F' then some (c.toNat - 55)
  else none

/-- Value of a four-hex-digit escape body. -/
def readHex4 (a b c d : Char) : Option Nat := do
  let x1 ← hexVal a
  let x2 ← hexVal b
  let x3 ← hexVal c
  let x4 ← hexVal d
  some (((x1 * 16 + x2) * 16 + x3) * 16 + x4)

/-- The short backslash escapes of JSON strings. -/
def unescape (e : Char) : Option Char :=
  if e = '"' then some '"'
  else if e = '\\' then some '\\'
  else if e = '/' then some '/'
  else if e = 'n' then some '\n'
  else if e = 't' then some '\t'
  else if e = 'r' then some '\r'
  else if e = 'b' then some '\x08'
  else if e = 'f' then some '\x0c'
  else none

/-- After a high surrogate hex escape with value n1, the continuation
must be a second backslash-u escape carrying a low surrogate; the pair
combines into one astral character. -/
def parseLowSurrogate (n1 : Nat) (r : List Char) : Option (Char × List Char) :=
  match r with
  | e1 :: e2 :: a2 :: b2 :: c2 :: d2 :: r2 =>
    if e1 = '\\' ∧ e2 = 'u' then
      (readHex4 a2 b2 c2 d2).bind fun n2 =>
        if 0xdc00 ≤ n2 ∧ n2 ≤ 0xdfff then
          some (Char.ofNat (0x10000 + (n1 - 0xd800) * 0x400 + (n2 - 0xdc00)), r2)
        else none
    else none
  | _ => none

/-- The body of a four-hex-digit escape, after the backslash-u prefix:
read the four digits; a high surrogate hands over to parseLowSurrogate;
a lone low surrogate is rejected, since it denotes no scalar value. -/
def parseUEscape (cs : List Char) : Option (Char × List Char) :=
  match cs with
  | a :: b :: c :: d :: r =>
    (readHex4 a b c d).bind fun n1 =>
      if 0xd800 ≤ n1 ∧ n1 ≤ 0xdbff then parseLowSurrogate n1 r
      else if 0xdc00 ≤ n1 ∧ n1 ≤ 0xdfff then none
      else some (Char.ofNat n1, r)
  | _ => none

/-- Modelled from the spec: the string scanner of the default JSON
decoder, reading characters after the opening quote up to the closing
quote, decoding short escapes and hex escapes (parseUEscape). The fuel
counts character groups, so any fuel above the input length is enough. -/
def parseStrChars : Nat → List Char → Option (List Char × List Char)
  | 0, _ => none
  | _ + 1, [] => none
  | f + 1, c :: r =>
    if c = '"' then some ([], r)
    else if c = '\\' then
      match r with
      | [] => none
      | e :: r2 =>
        if e = 'u' then
          (parseUEscape r2).bind fun q =>
            (parseStrChars f q.2).map (fun p => (q.1 :: p.1, p.2))
        else
          (unescape e).bind fun ch =>
            (parseStrChars f r2).map (fun p => (ch :: p.1, p.2))
    else (parseStrChars f r).map (fun p => (c :: p.1, p.2))

/-- Numeric value of one decimal digit character. -/
def digitVal (c : Char) : Nat := c.toNat - 48

/-- Value of a nonempty run of decimal digit characters. -/
def digitsVal (ds : List Char) : Nat :=
  ds.foldl (fun a c => a * 10 + digitVal c) 0

/-- Modelled from the spec: the number scanner of the default JSON
decoder, restricted to the integers of this embedding: an optional minus
sign followed by a nonempty digit run (fraction and exponent forms carry
floating-point payloads, which are outside the embedding). -/
def parseNum (cs : List Char) : Option (JValue × List Char) :=
  match cs with
  | [] => none
  | c :: r =>
    if c = '-' then
      let ds := r.takeWhile Char.isDigit
      if ds.isEmpty then none
      else some (JValue.jint (-(digitsVal ds : Int)), r.dropWhile Char.isDigit)
    else
      let ds := (c :: r).takeWhile Char.isDigit
      if ds.isEmpty then none
      else some (JValue.jint ((digitsVal ds : Int)), (c :: r).dropWhile Char.isDigit)

mutual

/-- Modelled from the spec: the value scanner of the default JSON decoder
(json.loads), with a fuel bound on nesting depth supplied by the caller. -/
def parseVal : Nat → List Char → Option (JValue × List Char)
  | 0, _ => none
  | f + 1, cs =>
    match skipWs cs with
    | [] => none
    | c :: r =>
      if c = '-' || c.isDigit then parseNum (c :: r)
      else if c = '"' then
        (parseStrChars (r.length + 1) r).map
          (fun p => (JValue.jstr (String.mk p.1), p.2))
      else if c = '[' then
        match skipWs r with
        | [] => none
        | c2 :: r2 =>
          if c2 = ']' then some (JValue.jarr [], r2)
          else (parseElems f (c2 :: r2)).map (fun p => (JValue.jarr p.1, p.2))
      else if c = '\x7b' then
        match skipWs r with
        | [] => none
        | c2 :: r2 =>
          if c2 = '\x7d' then some (JValue.jobj [], r2)
          else (parseMembs f (c2 :: r2)).map (fun p => (JValue.jobj p.1, p.2))
      else
        match c, r with
        | 'n', 'u' :: 'l' :: 'l' :: r2 => some (JValue.jnull, r2)
        | 't', 'r' :: 'u' :: 'e' :: r2 => some (JValue.jbool true, r2)
        | 'f', 'a' :: 'l' :: 's' :: 'e' :: r2 => some (JValue.jbool false, r2)
        | _, _ => none

/-- One or more comma-separated array items up to the closing bracket. -/
def parseElems : Nat → List Char → Option (List JValue × List Char)
  | 0, _ => none
  | f + 1, cs =>
    (parseVal f cs).bind fun q =>
      match skipWs q.2 with
      | ',' :: r2 => (parseElems f r2).map (fun p => (q.1 :: p.1, p.2))
      | ']' :: r2 => some ([q.1], r2)
      | _ => none

/-- One or more comma-separated object members up to the closing brace;
every parsed key is a string key. -/
def parseMembs : Nat → List Char → Option (List (JKey × JValue) × List Char)
  | 0, _ => none
  | f + 1, cs =>
    match skipWs cs with
    | '"' :: r =>
      (parseStrChars (r.length + 1) r).bind fun q =>
        match skipWs q.2 with
        | ':' :: r2 =>
          (parseVal f r2).bind fun w =>
            match skipWs w.2 with
            | ',' :: r4 =>
              (parseMembs f r4).map
                (fun p => ((JKey.kstr (String.mk q.1), w.1) :: p.1, p.2))
            | '\x7d' :: r4 => some ([(JKey.kstr (String.mk q.1), w.1)], r4)
            | _ => none
        | _ => none
    | _ => none

end

/-- Modelled from the spec: the default JSON decoder (json.loads): scan
one value and require only whitespace after it; the fuel bound of one
more than the input length covers any nesting the input can express. -/
def loads (s : String) : Option JValue :=
  match parseVal (s.data.length + 1) s.data with
  | some (v, rest) => if (skipWs rest).isEmpty then some v else none
  | none => none

/-- Python value is None, the test the bind processor applies. -/
def is_null : JValue → Bool
  | .jnull => true
  | _ => false

/-- A value arriving at the bind processor: either the explicit
persist-as-SQL-NULL marker (an elements.Null construct, modelled from the
spec since elements is not in the source file) or an in-memory value. -/
inductive BindValue where
  | sqlNull
  | value (v : JValue)

/-- JSON.bind_processor: json_serializer is the dialect override or
json.dumps; the returned process function maps the Null construct, and
None when none_as_null is set, to the absent result (SQL NULL), and
serializes everything else. The python-2 branch of the source differs
only by encoding the payload to bytes; the text branch is modelled. -/
def bind_processor (none_as_null : Bool)
    (dialect_json_serializer : Option (JValue → String)) :
    BindValue → Option String :=
  let json_serializer := dialect_json_serializer.getD dumps
  fun value =>
    match value with
    | .sqlNull => none
    | .value v =>
      if is_null v && none_as_null then none
      else some (json_serializer v)

/-- JSON.result_processor: json_deserializer is the dialect override or
json.loads; SQL NULL comes back as the in-memory absence value None, and
any other payload is deserialized (a deserializer failure is the raised
error). The python-2 branch of the source differs only by decoding byte
payloads first; the text branch is modelled. -/
def result_processor (dialect_json_deserializer : Option (String → Option JValue)) :
    Option String → Except PyError JValue :=
  let json_deserializer := dialect_json_deserializer.getD loads
  fun value =>
    match value with
    | none => Except.ok JValue.jnull
    | some raw =>
      match json_deserializer raw with
      | some v => Except.ok v
      | none => Except.error PyError.valueError

mutual

/-- Every mapping inside the value has only string keys: the domain on
which the default codec is injective on keys. -/
def strKeyedV : JValue → Bool
  | .jarr l => strKeyedL l
  | .jobj m => strKeyedM m
  | _ => true

/-- strKeyedV over a list of array items. -/
def strKeyedL : List JValue → Bool
  | [] => true
  | v :: vs => strKeyedV v && strKeyedL vs

/-- strKeyedV over object members, requiring each key to be a string. -/
def strKeyedM : List (JKey × JValue) → Bool
  | [] => true
  | (JKey.kstr _, v) :: ms => strKeyedV v && strKeyedM ms
  | (JKey.kint _, _) :: _ => false

end

/-- The input does not begin with a decimal digit: the context in which
the greedy number scanner stops exactly at a rendered integer. Container
delimiters, separators and the end of input all satisfy it. -/
def headNotDigit (cs : List Char) : Prop :=
  ∀ c, cs.head? = some c → c.isDigit = false

/-! ## Claim theorems (except the round-trip claim, developed below) -/

/-- C1 (code bug): each of the five membership predicate builders has_key,
has_all, has_any, contains, contained_by on an Extended (JSONB) receiver
is documented to produce a Boolean expression with the named operator,
but every one of them raises NameError instead: the adaptation hook they
are routed through evaluates isinstance(op, custom_op) and custom_op is
an unbound name in the module, so no expression is produced. -/
theorem jsonb_predicates_raise_nameerror :
    JSONB.has_key (SqlExpr.column "data") (PyIndex.pystr "x") ResultType.text
      = Except.error (PyError.nameError "custom_op")
    ∧ JSONB.has_all (SqlExpr.column "data") (PyIndex.pyseq [PyScalar.sstr "x"]) ResultType.text
      = Except.error (PyError.nameError "custom_op")
    ∧ JSONB.has_any (SqlExpr.column "data") (PyIndex.pyseq [PyScalar.sstr "x"]) ResultType.text
      = Except.error (PyError.nameError "custom_op")
    ∧ JSONB.contains (SqlExpr.column "data") (PyIndex.pystr "x") ResultType.sameType
      = Except.error (PyError.nameError "custom_op")
    ∧ JSONB.contained_by (SqlExpr.column "data") (PyIndex.pystr "x") ResultType.sameType
      = Except.error (PyError.nameError "custom_op") :=
  ⟨rfl, rfl, rfl, rfl, rfl⟩

/-- C2 (code bug): the Extended adaptation hook never falls through to the
Concatenable default for any operator: its first test references the
unbound module name custom_op, so every call — with a custom operator or
a plain operator function — raises NameError. -/
theorem adapt_expression_always_nameerror (op : SqlOperator) (other : ResultType) :
    JSONB._adapt_expression op other = Except.error (PyError.nameError "custom_op") := rfl

/-- C3 (counterexample): the claim as stated is false: it asserts that
ASTEXT and ASTEXT_PATHIDX do not have the self-precedent flag set, but
the source constructs all four operators with
natural_self_precedent=True. -/
theorem operator_constants_claim_false :
    ¬ (INDEX.opstring = "->" ∧ PATHIDX.opstring = "#>" ∧
       ASTEXT.opstring = "->>" ∧ ASTEXT_PATHIDX.opstring = "#>>" ∧
       INDEX.precedence = 5 ∧ PATHIDX.precedence = 5 ∧
       ASTEXT.precedence = 5 ∧ ASTEXT_PATHIDX.precedence = 5 ∧
       INDEX.natural_self_precedent = true ∧
       PATHIDX.natural_self_precedent = true ∧
       ASTEXT.natural_self_precedent = false ∧
       ASTEXT_PATHIDX.natural_self_precedent = false) := by
  decide

/-- C3 (amended): the four operator constants have the declared symbols
and precedence 5, and all four — ASTEXT and ASTEXT_PATHIDX included —
have the self-precedent flag set. -/
theorem operator_constants_values :
    INDEX.opstring = "->" ∧ PATHIDX.opstring = "#>" ∧
    ASTEXT.opstring = "->>" ∧ ASTEXT_PATHIDX.opstring = "#>>" ∧
    INDEX.precedence = 5 ∧ PATHIDX.precedence = 5 ∧
    ASTEXT.precedence = 5 ∧ ASTEXT_PATHIDX.precedence = 5 ∧
    INDEX.natural_self_precedent = true ∧
    PATHIDX.natural_self_precedent = true ∧
    ASTEXT.natural_self_precedent = true ∧
    ASTEXT_PATHIDX.natural_self_precedent = true := by
  decide

/-- C4 (code bug): a text scalar key resolves to INDEX with the key
unchanged and the column's own type, but a numeric scalar key — supported
per the type's own docstring example col[5] and per the spec's
Scalar(text-or-number) — fails the Sequence assertion: indexing with the
number 5 raises AssertionError and produces nothing. -/
theorem scalar_key_resolution_code_bug :
    _setup_getitem default_index_map (PyIndex.pystr "some key")
      = Except.ok (INDEX, PyIndex.pystr "some key", ResultType.sameType)
    ∧ _setup_getitem default_index_map (PyIndex.pyint 5)
      = Except.error PyError.assertionError :=
  ⟨rfl, rfl⟩

/-- C5 (counterexample): the claim asserts that the empty sequence is
rejected at construction time, but _setup_getitem accepts it: the empty
list passes the Sequence assertion and construction succeeds with
operator PATHIDX and the rendered index consisting of the two braces. -/
theorem empty_sequence_not_rejected :
    _setup_getitem default_index_map (PyIndex.pyseq [])
      = Except.ok (PATHIDX, PyIndex.pystr "\x7b\x7d", ResultType.sameType) := rfl

/-- C5 (amended): for every index key that is neither a string nor a
sequence (a number, a mapping), construction fails immediately with an
assertion error and no expression is produced; the empty sequence,
however, is not rejected (see the counterexample). -/
theorem invalid_key_shape_asserts (m : PyIndex → Option ResultType)
    (index : PyIndex)
    (hs : isinstance_string_types index = false)
    (hq : isinstance_Sequence index = false) :
    _setup_getitem m index = Except.error PyError.assertionError := by
  cases index <;>
    simp_all [_setup_getitem, isinstance_string_types, isinstance_Sequence]

/-- C5 (witness): the amended theorem evaluated at a concrete key that is
neither a string nor a sequence (a dict). -/
theorem invalid_key_shape_asserts_witness :
    isinstance_string_types PyIndex.pydict = false
    ∧ isinstance_Sequence PyIndex.pydict = false
    ∧ _setup_getitem default_index_map PyIndex.pydict
        = Except.error PyError.assertionError :=
  ⟨rfl, rfl, invalid_key_shape_asserts default_index_map PyIndex.pydict rfl rfl⟩

/-- C6 (confirmed): indexing with a non-empty ordered key sequence
resolves to operator PATHIDX and the rendered index is exactly the keys'
literal text forms joined by comma-space, wrapped in braces. -/
theorem path_index_rendering (m : PyIndex → Option ResultType)
    (elems : List PyScalar) (_hne : elems ≠ []) :
    _setup_getitem m (PyIndex.pyseq elems)
      = Except.ok (PATHIDX,
          PyIndex.pystr
            ("\x7b" ++ String.intercalate ", " (elems.map text_type) ++ "\x7d"),
          _type_for_index m
            (PyIndex.pystr
              ("\x7b" ++ String.intercalate ", " (elems.map text_type) ++ "\x7d"))) := by
  simp [_setup_getitem, isinstance_string_types, isinstance_Sequence]

/-- C6 (witness): the theorem evaluated at the concrete two-key sequence
(a, b), rendering as the braced comma-space join. -/
theorem path_index_rendering_witness :
    ([PyScalar.sstr "a", PyScalar.sstr "b"] ≠ ([] : List PyScalar))
    ∧ _setup_getitem default_index_map
        (PyIndex.pyseq [PyScalar.sstr "a", PyScalar.sstr "b"])
      = Except.ok (PATHIDX, PyIndex.pystr "\x7ba, b\x7d", ResultType.sameType) :=
  ⟨by simp,
   path_index_rendering default_index_map
     [PyScalar.sstr "a", PyScalar.sstr "b"] (by simp)⟩

/-- C7 (confirmed): astext on an expression produced by an index operation
builds a new expression with the same left and right operands and result
type Text, substituting ASTEXT for INDEX and ASTEXT_PATHIDX for
PATHIDX. -/
theorem astext_substitution (l : SqlExpr) (r : PyIndex) (rt : ResultType) :
    astext (SqlExpr.binary l (SqlOperator.custom INDEX) r rt)
      = Except.ok (SqlExpr.binary l (SqlOperator.custom ASTEXT) r ResultType.text)
    ∧ astext (SqlExpr.binary l (SqlOperator.custom PATHIDX) r rt)
      = Except.ok
          (SqlExpr.binary l (SqlOperator.custom ASTEXT_PATHIDX) r ResultType.text) :=
  ⟨rfl, rfl⟩

/-- C8 (confirmed): the bind processor maps the explicit SQL NULL marker,
and the absence value None when none_as_null is set, to the absent
result; every other value — None under none_as_null=false included — is
serialized with the override or the default encoder, None serializing to
the encoding of the null marker rather than to absent. -/
theorem bind_processor_null_policy (naz : Bool) (s : Option (JValue → String))
    (v : JValue) (hv : (is_null v && naz) = false) :
    bind_processor naz s BindValue.sqlNull = none
    ∧ bind_processor true s (BindValue.value JValue.jnull) = none
    ∧ bind_processor false s (BindValue.value JValue.jnull)
        = some ((s.getD dumps) JValue.jnull)
    ∧ bind_processor false none (BindValue.value JValue.jnull) = some "null"
    ∧ bind_processor naz s (BindValue.value v) = some ((s.getD dumps) v) := by
  refine ⟨rfl, rfl, rfl, rfl, ?_⟩
  cases naz <;> cases hn : is_null v <;> simp_all [bind_processor]

/-- C8 (witness): the theorem evaluated at the non-null value 3 with
none_as_null set: the value is still serialized. -/
theorem bind_processor_null_policy_witness :
    ((is_null (JValue.jint 3) && true) = false)
    ∧ bind_processor true none (BindValue.value (JValue.jint 3)) = some "3" :=
  ⟨rfl, (bind_processor_null_policy true none (JValue.jint 3) rfl).2.2.2.2⟩

/-- C10 (counterexample): the claim includes a bare column — a receiver
with no operator — among the receivers on which astext does not raise,
but reading the operator attribute of a bare column raises
AttributeError, so astext on a bare column produces nothing. -/
theorem astext_bare_column_raises :
    astext (SqlExpr.column "data") = Except.error PyError.attributeError := rfl

/-- C10 (amended): astext checks nothing about its receiver beyond
reading its operator: on every binary expression whose operator is
anything other than PATHIDX — an index operator or not — the else branch
is a catch-all that substitutes ASTEXT and produces a Text-typed
expression from the receiver's left and right operands; only on a bare
column does the attribute read itself raise. -/
theorem astext_catch_all (l : SqlExpr) (op : SqlOperator) (r : PyIndex)
    (rt : ResultType) (hop : op ≠ SqlOperator.custom PATHIDX) :
    astext (SqlExpr.binary l op r rt)
      = Except.ok (SqlExpr.binary l (SqlOperator.custom ASTEXT) r ResultType.text) := by
  have h : astext (SqlExpr.binary l op r rt)
      = Except.ok (SqlExpr.binary l
          (if op = SqlOperator.custom PATHIDX then SqlOperator.custom ASTEXT_PATHIDX
           else SqlOperator.custom ASTEXT) r ResultType.text) := rfl
  rw [h, if_neg hop]

/-- C10 (witness): the amended theorem evaluated on a receiver whose
operator is ASTEXT — not produced by an index operation — where astext
still substitutes ASTEXT without raising. -/
theorem astext_catch_all_witness :
    (SqlOperator.custom ASTEXT ≠ SqlOperator.custom PATHIDX)
    ∧ astext (SqlExpr.binary (SqlExpr.column "c") (SqlOperator.custom ASTEXT)
        (PyIndex.pystr "k") ResultType.text)
      = Except.ok (SqlExpr.binary (SqlExpr.column "c") (SqlOperator.custom ASTEXT)
          (PyIndex.pystr "k") ResultType.text) :=
  ⟨by decide,
   astext_catch_all (SqlExpr.column "c") (SqlOperator.custom ASTEXT)
     (PyIndex.pystr "k") ResultType.text (by decide)⟩

/-! ## Round-trip development for the default codec (claim C9) -/

theorem skipWs_cons_of_not_ws (c : Char) (r : List Char) (h : isWs c = false) :
    skipWs (c :: r) = c :: r := by
  simp [skipWs, h]

theorem digitChar_mem_digits (d : Nat) (h : d < 10) :
    digitChar d ∈ ['0', '1', '2', '3', '4', '5', '6', '7', '8', '9'] := by
  interval_cases d <;> decide

theorem natDecimalAux_mem (f : Nat) :
    ∀ n c, c ∈ natDecimalAux f n →
      c ∈ ['0', '1', '2', '3', '4', '5', '6', '7', '8', '9'] := by
  induction f with
  | zero => intro n c hc; simp [natDecimalAux] at hc
  | succ f ih =>
    intro n c hc
    by_cases h : n < 10
    · simp only [natDecimalAux, if_pos h, List.mem_singleton] at hc
      subst hc; exact digitChar_mem_digits n h
    · simp only [natDecimalAux, if_neg h, List.mem_append, List.mem_singleton] at hc
      rcases hc with hc | hc
      · exact ih (n / 10) c hc
      · subst hc; exact digitChar_mem_digits (n % 10) (Nat.mod_lt _ (by omega))

theorem natDecimal_mem (n : Nat) :
    ∀ c ∈ natDecimal n, c ∈ ['0', '1', '2', '3', '4', '5', '6', '7', '8', '9'] :=
  fun c hc => natDecimalAux_mem (n + 1) n c hc

theorem mem_digits_isDigit (c : Char)
    (h : c ∈ ['0', '1', '2', '3', '4', '5', '6', '7', '8', '9']) :
    c.isDigit = true := by
  fin_cases h <;> decide

theorem mem_digits_props (c : Char)
    (h : c ∈ ['0', '1', '2', '3', '4', '5', '6', '7', '8', '9']) :
    isWs c = false ∧ c ≠ '-' ∧ c ≠ ']' ∧ c ≠ '\x7d' ∧ c ≠ ',' ∧ c ≠ ':' ∧
    c ≠ '"' ∧ c ≠ '[' ∧ c ≠ '\x7b' := by
  fin_cases h <;> refine ⟨by decide, by decide, by decide, by decide, by decide,
    by decide, by decide, by decide, by decide⟩

theorem natDecimalAux_ne_nil (f n : Nat) (h : n < f) : natDecimalAux f n ≠ [] := by
  cases f with
  | zero => omega
  | succ f => by_cases h10 : n < 10 <;> simp [natDecimalAux, h10]

theorem natDecimal_ne_nil (n : Nat) : natDecimal n ≠ [] :=
  natDecimalAux_ne_nil (n + 1) n (by omega)

theorem digitVal_digitChar (d : Nat) (h : d < 10) : digitVal (digitChar d) = d := by
  interval_cases d <;> decide

theorem digitsVal_append (ds : List Char) (c : Char) :
    digitsVal (ds ++ [c]) = digitsVal ds * 10 + digitVal c := by
  simp [digitsVal, List.foldl_append]

theorem digitsVal_natDecimalAux (f : Nat) :
    ∀ n, n < f → digitsVal (natDecimalAux f n) = n := by
  induction f with
  | zero => intro n h; omega
  | succ f ih =>
    intro n h
    by_cases h10 : n < 10
    · simp only [natDecimalAux, if_pos h10, digitsVal, List.foldl_cons,
        List.foldl_nil, Nat.zero_mul, Nat.zero_add]
      exact digitVal_digitChar n h10
    · have hn : n / 10 < f := by omega
      rw [natDecimalAux, if_neg h10, digitsVal_append, ih (n / 10) hn,
        digitVal_digitChar (n % 10) (by omega)]
      omega

theorem digitsVal_natDecimal (n : Nat) : digitsVal (natDecimal n) = n :=
  digitsVal_natDecimalAux (n + 1) n (by omega)

theorem takeWhile_all_append (p : Char → Bool) (ds ys : List Char)
    (hall : ∀ c ∈ ds, p c = true)
    (hy : ∀ c, ys.head? = some c → p c = false) :
    (ds ++ ys).takeWhile p = ds ∧ (ds ++ ys).dropWhile p = ys := by
  induction ds with
  | nil =>
    cases ys with
    | nil => simp
    | cons y ys => have hyy := hy y rfl; simp [List.takeWhile_cons, List.dropWhile_cons, hyy]
  | cons d ds ih =>
    have hd := hall d (by simp)
    have ihh := ih (fun c hc => hall c (by simp [hc]))
    simp [List.takeWhile_cons, List.dropWhile_cons, hd, ihh.1, ihh.2]

theorem parseNum_intDecimal (n : Int) (rest : List Char) (h : headNotDigit rest) :
    parseNum (intDecimal n ++ rest) = some (JValue.jint n, rest) := by
  have hdig : ∀ c ∈ natDecimal n.natAbs, Char.isDigit c = true :=
    fun c hc => mem_digits_isDigit c (natDecimal_mem _ c hc)
  have htw := takeWhile_all_append Char.isDigit (natDecimal n.natAbs) rest hdig h
  have hval := digitsVal_natDecimal n.natAbs
  have hne := natDecimal_ne_nil n.natAbs
  have hemp : ((natDecimal n.natAbs).isEmpty) = false := by
    cases hq : natDecimal n.natAbs with
    | nil => exact absurd hq hne
    | cons c cs => rfl
  by_cases hneg : n < 0
  · rw [intDecimal, if_pos hneg, List.cons_append, parseNum, if_pos rfl]
    rw [htw.1, htw.2]
    simp only [hemp, Bool.false_eq_true, if_false, hval]
    have : -((n.natAbs : Nat) : Int) = n := by omega
    rw [this]
  · obtain ⟨c, cs, hcons⟩ : ∃ c cs, natDecimal n.natAbs = c :: cs := by
      cases hq : natDecimal n.natAbs with
      | nil => exact absurd hq hne
      | cons c cs => exact ⟨c, cs, rfl⟩
    have hprops := mem_digits_props c (natDecimal_mem _ c (by rw [hcons]; simp))
    rw [intDecimal, if_neg hneg, hcons, List.cons_append, parseNum,
      if_neg hprops.2.1, ← List.cons_append, ← hcons]
    rw [htw.1, htw.2]
    simp only [hemp, Bool.false_eq_true, if_false, hval]
    have : ((n.natAbs : Nat) : Int) = n := by omega
    rw [this]

theorem hexVal_hexChar (d : Nat) (h : d < 16) : hexVal (hexChar d) = some d := by
  interval_cases d <;> decide

theorem readHex4_hex4 (n : Nat) (h : n < 65536) :
    readHex4 (hexChar (n / 4096 % 16)) (hexChar (n / 256 % 16))
      (hexChar (n / 16 % 16)) (hexChar (n % 16)) = some n := by
  rw [readHex4, hexVal_hexChar _ (Nat.mod_lt _ (by omega)),
    hexVal_hexChar _ (Nat.mod_lt _ (by omega)),
    hexVal_hexChar _ (Nat.mod_lt _ (by omega)),
    hexVal_hexChar _ (Nat.mod_lt _ (by omega))]
  simp only [Option.bind_eq_bind, Option.some_bind]
  congr 1
  omega

theorem char_valid_range (c : Char) :
    c.toNat < 0xd800 ∨ (0xdfff < c.toNat ∧ c.toNat < 0x110000) := c.valid

theorem parseStrChars_u (f : Nat) (r2 : List Char) :
    parseStrChars (f + 1) ('\\' :: 'u' :: r2)
      = (parseUEscape r2).bind fun q =>
          (parseStrChars f q.2).map (fun p => (q.1 :: p.1, p.2)) := rfl

theorem parseStrChars_plain (f : Nat) (c : Char) (r : List Char)
    (h1 : ¬ c = '"') (h2 : ¬ c = '\\') :
    parseStrChars (f + 1) (c :: r)
      = (parseStrChars f r).map (fun p => (c :: p.1, p.2)) := by
  simp only [parseStrChars, if_neg h1, if_neg h2]

theorem parseUEscape_bmp (n : Nat) (hle : n ≤ 0xffff)
    (hval : n < 0xd800 ∨ 0xdfff < n) (tail : List Char) :
    parseUEscape (hex4 n ++ tail) = some (Char.ofNat n, tail) := by
  simp only [hex4, List.cons_append, List.nil_append]
  rw [parseUEscape, readHex4_hex4 n (by omega)]
  simp only [Option.some_bind]
  rw [if_neg (show ¬ (0xd800 ≤ n ∧ n ≤ 0xdbff) by omega),
    if_neg (show ¬ (0xdc00 ≤ n ∧ n ≤ 0xdfff) by omega)]

theorem parseUEscape_pair (hi lo : Nat) (tail : List Char)
    (hhi : 0xd800 ≤ hi ∧ hi ≤ 0xdbff) (hlo : 0xdc00 ≤ lo ∧ lo ≤ 0xdfff) :
    parseUEscape (hex4 hi ++ ('\\' :: 'u' :: (hex4 lo ++ tail)))
      = some (Char.ofNat (0x10000 + (hi - 0xd800) * 0x400 + (lo - 0xdc00)), tail) := by
  simp only [hex4, List.cons_append, List.nil_append]
  rw [parseUEscape, readHex4_hex4 hi (by omega)]
  simp only [Option.some_bind]
  rw [if_pos hhi, parseLowSurrogate, if_pos ⟨rfl, rfl⟩,
    readHex4_hex4 lo (by omega)]
  simp only [Option.some_bind]
  rw [if_pos hlo]

theorem parseStrChars_escapeChar (c : Char) (f : Nat) (tail : List Char) :
    parseStrChars (f + 1) (escapeChar c ++ tail)
      = (parseStrChars f tail).map (fun p => (c :: p.1, p.2)) := by
  by_cases h1 : c = '"'
  · subst h1; rfl
  by_cases h2 : c = '\\'
  · subst h2; rfl
  by_cases h3 : c = '\n'
  · subst h3; rfl
  by_cases h4 : c = '\t'
  · subst h4; rfl
  by_cases h5 : c = '\r'
  · subst h5; rfl
  by_cases h6 : c = '\x08'
  · subst h6; rfl
  by_cases h7 : c = '\x0c'
  · subst h7; rfl
  by_cases h8 : 0x20 ≤ c.toNat ∧ c.toNat ≤ 0x7e
  · rw [show escapeChar c = [c] by
      simp only [escapeChar, if_neg h1, if_neg h2, if_neg h3, if_neg h4,
        if_neg h5, if_neg h6, if_neg h7, if_pos h8]]
    rw [List.singleton_append, parseStrChars_plain f c tail h1 h2]
  have hv := char_valid_range c
  by_cases h9 : c.toNat ≤ 0xffff
  · rw [show escapeChar c = '\\' :: 'u' :: hex4 c.toNat by
      simp only [escapeChar, if_neg h1, if_neg h2, if_neg h3, if_neg h4,
        if_neg h5, if_neg h6, if_neg h7, if_neg h8, if_pos h9]]
    rw [List.cons_append, List.cons_append, parseStrChars_u,
      parseUEscape_bmp c.toNat (by omega) (by omega) tail]
    simp only [Option.some_bind, Char.ofNat_toNat]
  · rw [show escapeChar c
        = ('\\' :: 'u' :: hex4 (0xd800 + (c.toNat - 0x10000) / 0x400)) ++
            ('\\' :: 'u' :: hex4 (0xdc00 + (c.toNat - 0x10000) % 0x400)) by
      simp only [escapeChar, if_neg h1, if_neg h2, if_neg h3, if_neg h4,
        if_neg h5, if_neg h6, if_neg h7, if_neg h8, if_neg h9]]
    simp only [List.cons_append, List.append_assoc]
    rw [parseStrChars_u,
      parseUEscape_pair (0xd800 + (c.toNat - 0x10000) / 0x400)
        (0xdc00 + (c.toNat - 0x10000) % 0x400) tail (by omega) (by omega)]
    simp only [Option.some_bind]
    rw [show 0x10000 +
        (0xd800 + (c.toNat - 0x10000) / 0x400 - 0xd800) * 0x400 +
        (0xdc00 + (c.toNat - 0x10000) % 0x400 - 0xdc00) = c.toNat by omega]
    rw [Char.ofNat_toNat]

theorem escapeChar_ne_nil (c : Char) : escapeChar c ≠ [] := by
  unfold escapeChar
  split_ifs <;> simp [hex4]

theorem parseStrChars_dump (l : List Char) :
    ∀ (f : Nat) (tail : List Char), ((l.map escapeChar).flatten).length < f →
      parseStrChars f ((l.map escapeChar).flatten ++ '"' :: tail) = some (l, tail) := by
  induction l with
  | nil =>
    intro f tail hf
    match f with
    | g + 1 => rfl
  | cons c cs ih =>
    intro f tail hf
    have hne := escapeChar_ne_nil c
    have hlen : 0 < (escapeChar c).length := List.length_pos.mpr hne
    simp only [List.map_cons, List.flatten_cons, List.length_append] at hf ⊢
    obtain ⟨g, rfl⟩ : ∃ g, f = g + 1 := ⟨f - 1, by omega⟩
    rw [List.append_assoc, parseStrChars_escapeChar,
      ih g tail (by omega)]
    rfl

theorem cons_headNotDigit (c : Char) (r : List Char) (h : c.isDigit = false) :
    headNotDigit (c :: r) := by
  intro x hx
  simp only [List.head?_cons, Option.some.injEq] at hx
  subst hx; exact h

theorem nil_headNotDigit : headNotDigit [] := by
  intro x hx; simp at hx

theorem parseVal_ws (f : Nat) (cs : List Char) :
    parseVal f (' ' :: cs) = parseVal f cs := by
  cases f with
  | zero => rfl
  | succ g => rfl

theorem parseElems_ws (f : Nat) (cs : List Char) :
    parseElems f (' ' :: cs) = parseElems f cs := by
  cases f with
  | zero => rfl
  | succ g => simp only [parseElems, parseVal_ws]

theorem parseMembs_ws (f : Nat) (cs : List Char) :
    parseMembs f (' ' :: cs) = parseMembs f cs := by
  cases f with
  | zero => rfl
  | succ g => rfl

theorem dumpVal_head (v : JValue) :
    ∃ c cs2, dumpVal v = c :: cs2 ∧ isWs c = false ∧ c ≠ ']' ∧ c ≠ '\x7d' := by
  cases v with
  | jnull => exact ⟨'n', _, rfl, by decide, by decide, by decide⟩
  | jbool b =>
    cases b with
    | false => exact ⟨'f', _, rfl, by decide, by decide, by decide⟩
    | true => exact ⟨'t', _, rfl, by decide, by decide, by decide⟩
  | jint n =>
    by_cases hneg : n < 0
    · refine ⟨'-', natDecimal n.natAbs, ?_, by decide, by decide, by decide⟩
      show intDecimal n = _
      rw [intDecimal, if_pos hneg]
    · obtain ⟨c, cs, hcons⟩ : ∃ c cs, natDecimal n.natAbs = c :: cs := by
        cases hq : natDecimal n.natAbs with
        | nil => exact absurd hq (natDecimal_ne_nil n.natAbs)
        | cons c cs => exact ⟨c, cs, rfl⟩
      have hp := mem_digits_props c (natDecimal_mem _ c (by rw [hcons]; simp))
      refine ⟨c, cs, ?_, hp.1, hp.2.2.1, hp.2.2.2.1⟩
      show intDecimal n = _
      rw [intDecimal, if_neg hneg, hcons]
  | jstr s => exact ⟨'"', _, rfl, by decide, by decide, by decide⟩
  | jarr l => exact ⟨'[', _, rfl, by decide, by decide, by decide⟩
  | jobj m => exact ⟨'\x7b', _, rfl, by decide, by decide, by decide⟩

theorem dumpElems_head (w : JValue) (ws : List JValue) :
    ∃ c cs2, dumpElems (w :: ws) = c :: cs2 ∧ isWs c = false ∧ c ≠ ']' ∧ c ≠ '\x7d' := by
  obtain ⟨c, cs2, hc, h1, h2, h3⟩ := dumpVal_head w
  cases ws with
  | nil =>
    refine ⟨c, cs2, ?_, h1, h2, h3⟩
    show dumpVal w = _
    exact hc
  | cons x xs =>
    refine ⟨c, cs2 ++ ',' :: ' ' :: dumpElems (x :: xs), ?_, h1, h2, h3⟩
    show dumpVal w ++ ',' :: ' ' :: dumpElems (x :: xs) = _
    rw [hc, List.cons_append]

theorem dumpMembers_head (k : JKey) (v : JValue) (ms : List (JKey × JValue)) :
    ∃ cs2, dumpMembers ((k, v) :: ms) = '"' :: cs2 := by
  cases ms with
  | nil => cases k with
    | kstr s => exact ⟨_, rfl⟩
    | kint n => exact ⟨_, rfl⟩
  | cons m ms2 => cases k with
    | kstr s => exact ⟨_, rfl⟩
    | kint n => exact ⟨_, rfl⟩

theorem parseVal_minus_or_digit (f : Nat) (c : Char) (r : List Char)
    (hws : isWs c = false) (hcond : (decide (c = '-') || c.isDigit) = true) :
    parseVal (f + 1) (c :: r) = parseNum (c :: r) := by
  simp only [parseVal]
  rw [skipWs_cons_of_not_ws c r hws]
  split
  · rename_i heq; simp at heq
  · rename_i c2 r2 heq
    injection heq with h1 h2
    subst h1; subst h2
    rw [if_pos hcond]

theorem parseVal_arr (f : Nat) (R X : List Char) (c : Char)
    (hsw : skipWs R = c :: X) (hne : ¬ c = ']') :
    parseVal (f + 1) ('[' :: R)
      = (parseElems f (c :: X)).map (fun p => (JValue.jarr p.1, p.2)) := by
  simp only [parseVal]
  rw [skipWs_cons_of_not_ws '[' R (by decide)]
  split
  · rename_i heq; simp at heq
  · rename_i c2 r2 heq
    injection heq with h1 h2
    subst h1; subst h2
    rw [if_neg (by decide), if_neg (by decide), if_pos rfl, hsw]
    split
    · rename_i heq2; simp at heq2
    · rename_i c3 r3 heq2
      injection heq2 with h1 h2
      subst h1; subst h2
      rw [if_neg hne]

theorem parseVal_obj (f : Nat) (R X : List Char) (c : Char)
    (hsw : skipWs R = c :: X) (hne : ¬ c = '\x7d') :
    parseVal (f + 1) ('\x7b' :: R)
      = (parseMembs f (c :: X)).map (fun p => (JValue.jobj p.1, p.2)) := by
  simp only [parseVal]
  rw [skipWs_cons_of_not_ws '\x7b' R (by decide)]
  split
  · rename_i heq; simp at heq
  · rename_i c2 r2 heq
    injection heq with h1 h2
    subst h1; subst h2
    rw [if_neg (by decide), if_neg (by decide), if_neg (by decide), if_pos rfl,
      hsw]
    split
    · rename_i heq2; simp at heq2
    · rename_i c3 r3 heq2
      injection heq2 with h1 h2
      subst h1; subst h2
      rw [if_neg hne]

theorem parseVal_quote (f : Nat) (R : List Char) :
    parseVal (f + 1) ('"' :: R)
      = (parseStrChars (R.length + 1) R).map
          (fun p => (JValue.jstr (String.mk p.1), p.2)) := rfl

theorem dumpVal_length_pos (v : JValue) : 0 < (dumpVal v).length := by
  obtain ⟨c, cs2, hc, -, -, -⟩ := dumpVal_head v
  rw [hc]; simp

theorem dumpVal_arr_length (l : List JValue) :
    (dumpVal (JValue.jarr l)).length = (dumpElems l).length + 2 := by
  show ('[' :: dumpElems l ++ [']']).length = _
  simp

theorem dumpVal_obj_length (m : List (JKey × JValue)) :
    (dumpVal (JValue.jobj m)).length = (dumpMembers m).length + 2 := by
  show ('\x7b' :: dumpMembers m ++ ['\x7d']).length = _
  simp

theorem dumpElems_cons_cons_length (w x : JValue) (xs : List JValue) :
    (dumpElems (w :: x :: xs)).length
      = (dumpVal w).length + 2 + (dumpElems (x :: xs)).length := by
  show (dumpVal w ++ ',' :: ' ' :: dumpElems (x :: xs)).length = _
  simp
  omega

theorem dumpMembers_one_length (k : JKey) (v : JValue) :
    (dumpMembers [(k, v)]).length
      = (dumpKey k).length + 2 + (dumpVal v).length := by
  show (dumpKey k ++ ':' :: ' ' :: dumpVal v).length = _
  simp
  omega

theorem dumpMembers_cons_cons_length (k : JKey) (v : JValue)
    (m2 : JKey × JValue) (tl2 : List (JKey × JValue)) :
    (dumpMembers ((k, v) :: m2 :: tl2)).length
      = (dumpKey k).length + 2 + (dumpVal v).length + 2
          + (dumpMembers (m2 :: tl2)).length := by
  show (dumpKey k ++ ':' :: ' ' :: dumpVal v ++ ',' :: ' ' :: dumpMembers (m2 :: tl2)).length = _
  simp
  omega

mutual

theorem parseVal_dump (v : JValue) (f : Nat) (rest : List Char)
    (hsk : strKeyedV v = true) (hf : (dumpVal v).length ≤ f)
    (hrest : headNotDigit rest) :
    parseVal f (dumpVal v ++ rest) = some (v, rest) := by
  obtain ⟨g, rfl⟩ : ∃ g, f = g + 1 :=
    ⟨f - 1, by have := dumpVal_length_pos v; omega⟩
  cases v with
  | jnull => rfl
  | jbool b => cases b with
    | false => rfl
    | true => rfl
  | jint n =>
    obtain ⟨c, cs2, hc, hws, -, -⟩ := dumpVal_head (JValue.jint n)
    have hc2 : intDecimal n = c :: cs2 := hc
    have hcond : (decide (c = '-') || c.isDigit) = true := by
      by_cases hneg : n < 0
      · rw [intDecimal, if_pos hneg] at hc2
        injection hc2 with h1 h2
        simp [← h1]
      · rw [intDecimal, if_neg hneg] at hc2
        have hdig := mem_digits_isDigit c
          (natDecimal_mem n.natAbs c (by rw [hc2]; simp))
        simp [hdig]
    show parseVal (g + 1) (intDecimal n ++ rest) = some (JValue.jint n, rest)
    rw [hc2, List.cons_append,
      parseVal_minus_or_digit g c (cs2 ++ rest) hws hcond,
      ← List.cons_append, ← hc2]
    exact parseNum_intDecimal n rest hrest
  | jstr s =>
    show parseVal (g + 1)
        ('"' :: (((s.data.map escapeChar).flatten ++ ['"']) ++ rest))
      = some (JValue.jstr s, rest)
    rw [parseVal_quote,
      show ((s.data.map escapeChar).flatten ++ ['"']) ++ rest
        = (s.data.map escapeChar).flatten ++ '"' :: rest by simp]
    rw [parseStrChars_dump s.data _ rest (by simp; omega)]
    rfl
  | jarr l =>
    cases l with
    | nil => rfl
    | cons w ws =>
      have hskl : strKeyedL (w :: ws) = true := hsk
      obtain ⟨c, cs2, hc, hws, hne, -⟩ := dumpElems_head w ws
      have hsw : skipWs (dumpElems (w :: ws) ++ ']' :: rest)
          = c :: (cs2 ++ ']' :: rest) := by
        rw [hc, List.cons_append]
        exact skipWs_cons_of_not_ws _ _ hws
      have hgoal : dumpVal (JValue.jarr (w :: ws)) ++ rest
          = '[' :: (dumpElems (w :: ws) ++ ']' :: rest) := by
        show ('[' :: dumpElems (w :: ws) ++ [']']) ++ rest = _
        simp
      rw [hgoal, parseVal_arr g _ _ c hsw hne,
        ← List.cons_append, ← hc,
        parseElems_dump (w :: ws) g rest (by simp) hskl
          (by rw [dumpVal_arr_length] at hf; omega)]
      rfl
  | jobj m =>
    cases m with
    | nil => rfl
    | cons kv tl =>
      obtain ⟨k, v2⟩ := kv
      have hskm : strKeyedM ((k, v2) :: tl) = true := hsk
      obtain ⟨cs2, hc⟩ := dumpMembers_head k v2 tl
      have hsw : skipWs (dumpMembers ((k, v2) :: tl) ++ '\x7d' :: rest)
          = '"' :: (cs2 ++ '\x7d' :: rest) := by
        rw [hc, List.cons_append]
        exact skipWs_cons_of_not_ws _ _ (by decide)
      have hgoal : dumpVal (JValue.jobj ((k, v2) :: tl)) ++ rest
          = '\x7b' :: (dumpMembers ((k, v2) :: tl) ++ '\x7d' :: rest) := by
        show ('\x7b' :: dumpMembers ((k, v2) :: tl) ++ ['\x7d']) ++ rest = _
        simp
      rw [hgoal, parseVal_obj g _ _ '"' hsw (by decide),
        ← List.cons_append, ← hc,
        parseMembs_dump ((k, v2) :: tl) g rest (by simp) hskm
          (by rw [dumpVal_obj_length] at hf; omega)]
      rfl

theorem parseElems_dump (l : List JValue) (f : Nat) (rest : List Char)
    (hne : l ≠ []) (hsk : strKeyedL l = true)
    (hlen : (dumpElems l).length < f) :
    parseElems f (dumpElems l ++ ']' :: rest) = some (l, rest) := by
  cases l with
  | nil => exact absurd rfl hne
  | cons w ws =>
    have hskw : strKeyedV w = true := by
      simp only [strKeyedL, Bool.and_eq_true] at hsk; exact hsk.1
    have hskws : strKeyedL ws = true := by
      simp only [strKeyedL, Bool.and_eq_true] at hsk; exact hsk.2
    obtain ⟨g, rfl⟩ : ∃ g, f = g + 1 := ⟨f - 1, by omega⟩
    cases ws with
    | nil =>
      have hlen2 : (dumpVal w).length < g + 1 := hlen
      show parseElems (g + 1) (dumpVal w ++ ']' :: rest) = some ([w], rest)
      simp only [parseElems]
      rw [parseVal_dump w g (']' :: rest) hskw (by omega)
        (cons_headNotDigit ']' rest (by decide))]
      simp only [Option.some_bind]
      rfl
    | cons x xs =>
      have hdec : dumpElems (w :: x :: xs)
          = dumpVal w ++ ',' :: ' ' :: dumpElems (x :: xs) := rfl
      have hlen2 := hlen
      rw [dumpElems_cons_cons_length] at hlen2
      rw [hdec, List.append_assoc]
      simp only [List.cons_append]
      simp only [parseElems]
      rw [parseVal_dump w g
        (',' :: ' ' :: (dumpElems (x :: xs) ++ ']' :: rest)) hskw (by omega)
        (cons_headNotDigit ',' _ (by decide))]
      simp only [Option.some_bind]
      show (parseElems g (' ' :: (dumpElems (x :: xs) ++ ']' :: rest))).map
          (fun p => (w :: p.1, p.2)) = some (w :: x :: xs, rest)
      rw [parseElems_ws,
        parseElems_dump (x :: xs) g rest (by simp) hskws (by omega)]
      rfl

theorem parseMembs_dump (ms : List (JKey × JValue)) (f : Nat) (rest : List Char)
    (hne : ms ≠ []) (hsk : strKeyedM ms = true)
    (hlen : (dumpMembers ms).length < f) :
    parseMembs f (dumpMembers ms ++ '\x7d' :: rest) = some (ms, rest) := by
  cases ms with
  | nil => exact absurd rfl hne
  | cons kv tl =>
    obtain ⟨k, v⟩ := kv
    cases k with
    | kint n => simp [strKeyedM] at hsk
    | kstr s =>
      have hskv : strKeyedV v = true := by
        simp only [strKeyedM, Bool.and_eq_true] at hsk; exact hsk.1
      have hsktl : strKeyedM tl = true := by
        simp only [strKeyedM, Bool.and_eq_true] at hsk; exact hsk.2
      obtain ⟨g, rfl⟩ : ∃ g, f = g + 1 := ⟨f - 1, by omega⟩
      cases tl with
      | nil =>
        have hlen2 := hlen
        rw [dumpMembers_one_length] at hlen2
        have hshape : dumpMembers [(JKey.kstr s, v)] ++ '\x7d' :: rest
            = '"' :: ((s.data.map escapeChar).flatten ++
                '"' :: ':' :: ' ' :: (dumpVal v ++ '\x7d' :: rest)) := by
          show ((('"' :: ((s.data.map escapeChar).flatten ++ ['"'])) ++
              ':' :: ' ' :: dumpVal v) ++ '\x7d' :: rest) = _
          simp
        rw [hshape]
        show (parseStrChars
            (((s.data.map escapeChar).flatten ++
              '"' :: ':' :: ' ' :: (dumpVal v ++ '\x7d' :: rest)).length + 1)
            ((s.data.map escapeChar).flatten ++
              '"' :: ':' :: ' ' :: (dumpVal v ++ '\x7d' :: rest))).bind _
          = some ([(JKey.kstr s, v)], rest)
        rw [parseStrChars_dump s.data _ _ (by simp; omega)]
        simp only [Option.some_bind]
        show (parseVal g (' ' :: (dumpVal v ++ '\x7d' :: rest))).bind _
          = some ([(JKey.kstr s, v)], rest)
        rw [parseVal_ws,
          parseVal_dump v g ('\x7d' :: rest) hskv
            (by have h2 : 2 ≤ (dumpKey (JKey.kstr s)).length := by
                  show 2 ≤ ('"' :: ((s.data.map escapeChar).flatten ++ ['"'])).length
                  simp
                omega)
            (cons_headNotDigit '\x7d' rest (by decide))]
        simp only [Option.some_bind]
        rfl
      | cons m2 tl2 =>
        have hlen2 := hlen
        rw [dumpMembers_cons_cons_length] at hlen2
        have hshape : dumpMembers ((JKey.kstr s, v) :: m2 :: tl2) ++ '\x7d' :: rest
            = '"' :: ((s.data.map escapeChar).flatten ++
                '"' :: ':' :: ' ' :: (dumpVal v ++
                  ',' :: ' ' :: (dumpMembers (m2 :: tl2) ++ '\x7d' :: rest))) := by
          show ((('"' :: ((s.data.map escapeChar).flatten ++ ['"'])) ++
              ':' :: ' ' :: dumpVal v ++
                ',' :: ' ' :: dumpMembers (m2 :: tl2)) ++ '\x7d' :: rest) = _
          simp
        rw [hshape]
        show (parseStrChars
            (((s.data.map escapeChar).flatten ++
              '"' :: ':' :: ' ' :: (dumpVal v ++
                ',' :: ' ' :: (dumpMembers (m2 :: tl2) ++ '\x7d' :: rest))).length + 1)
            ((s.data.map escapeChar).flatten ++
              '"' :: ':' :: ' ' :: (dumpVal v ++
                ',' :: ' ' :: (dumpMembers (m2 :: tl2) ++ '\x7d' :: rest)))).bind _
          = some ((JKey.kstr s, v) :: m2 :: tl2, rest)
        rw [parseStrChars_dump s.data _ _ (by simp; omega)]
        simp only [Option.some_bind]
        show (parseVal g (' ' :: (dumpVal v ++
            ',' :: ' ' :: (dumpMembers (m2 :: tl2) ++ '\x7d' :: rest)))).bind _
          = some ((JKey.kstr s, v) :: m2 :: tl2, rest)
        rw [parseVal_ws,
          parseVal_dump v g
            (',' :: ' ' :: (dumpMembers (m2 :: tl2) ++ '\x7d' :: rest)) hskv
            (by have h2 : 2 ≤ (dumpKey (JKey.kstr s)).length := by
                  show 2 ≤ ('"' :: ((s.data.map escapeChar).flatten ++ ['"'])).length
                  simp
                omega)
            (cons_headNotDigit ',' _ (by decide))]
        simp only [Option.some_bind]
        show (parseMembs g (' ' :: (dumpMembers (m2 :: tl2) ++ '\x7d' :: rest))).map
            (fun p => ((JKey.kstr s, v) :: p.1, p.2))
          = some ((JKey.kstr s, v) :: m2 :: tl2, rest)
        rw [parseMembs_ws,
          parseMembs_dump (m2 :: tl2) g rest (by simp) hsktl (by omega)]
        rfl

end

theorem loads_dumps (v : JValue) (h : strKeyedV v = true) :
    loads (dumps v) = some v := by
  have hp : parseVal ((dumps v).data.length + 1) ((dumps v).data)
      = some (v, []) := by
    have := parseVal_dump v ((dumpVal v).length + 1) [] h (by omega)
      nil_headNotDigit
    simpa using this
  simp only [loads, hp]
  rfl

/-- C9 (counterexample): the round trip fails for a mapping with a
non-string key: the default encoder coerces the integer key 1 to the
text key "1", so decoding the encoded form returns a different mapping
than the original. -/
theorem roundtrip_claim_false :
    result_processor none (bind_processor false none
        (BindValue.value (JValue.jobj [(JKey.kint 1, JValue.jstr "a")])))
      ≠ Except.ok (JValue.jobj [(JKey.kint 1, JValue.jstr "a")]) := by
  intro h
  have he : result_processor none (bind_processor false none
        (BindValue.value (JValue.jobj [(JKey.kint 1, JValue.jstr "a")])))
      = Except.ok (JValue.jobj [(JKey.kstr "1", JValue.jstr "a")]) := rfl
  rw [he] at h
  simp at h

/-- C9 (amended): round trip through the codec bridge with the default
codec and default NULL policy: for every value all of whose mappings
have string keys — string-keyed mappings, ordered sequences, text,
integers and booleans, nested arbitrarily — applying the result
processor to the output of the bind processor returns the value again;
mappings with non-string keys are excluded, since the default encoder
coerces their keys to text (see the counterexample); floating-point
payloads are outside this embedding. -/
theorem json_roundtrip (v : JValue) (h : strKeyedV v = true) :
    result_processor none (bind_processor false none (BindValue.value v))
      = Except.ok v := by
  have hb : bind_processor false none (BindValue.value v) = some (dumps v) := by
    simp [bind_processor]
  rw [hb]
  simp only [result_processor, Option.getD_none]
  rw [loads_dumps v h]

/-- C9 (witness): the amended round-trip theorem evaluated at a concrete
nested value: a string-keyed mapping holding a list of an integer, a
text, a boolean and null. -/
theorem json_roundtrip_witness :
    strKeyedV (JValue.jobj [(JKey.kstr "k",
        JValue.jarr [JValue.jint 1, JValue.jstr "a", JValue.jbool true,
          JValue.jnull])]) = true
    ∧ result_processor none (bind_processor false none (BindValue.value
        (JValue.jobj [(JKey.kstr "k",
          JValue.jarr [JValue.jint 1, JValue.jstr "a", JValue.jbool true,
            JValue.jnull])])))
      = Except.ok (JValue.jobj [(JKey.kstr "k",
          JValue.jarr [JValue.jint 1, JValue.jstr "a", JValue.jbool true,
            JValue.jnull])]) :=
  ⟨rfl, json_roundtrip _ rfl⟩

end PgJson
